import Mathlib

set_option maxHeartbeats 1000000
set_option maxRecDepth 4096

/-!
Verification development for the WhisperLine peer-to-peer messaging client.

The definitions below are a shallow embedding of the repository sources:

- src/services/crypto.ts (the second, current variant of the crypto module):
  encryptMessage, decryptMessage, panicWipe, together with the platform
  functions they call (btoa, atob, and the unescape-encodeURIComponent and
  decodeURIComponent-escape compositions, which amount to UTF-8
  encoding and strict UTF-8 decoding of the byte string).
- src/services/signaling.ts: the SignalingService class (connections map,
  setupConnection, connectToUser, sendMessage, findOrCreateUser).
- src/App.tsx: the inbound message handlers (handleIncomingMessage and the
  polling fetch-interval effect) that deduplicate messages by id.

Strings are modelled as lists of Lean characters (Unicode scalar values),
and byte strings as lists of naturals below 256.  Asynchronous transport
behaviour is modelled by a transport oracle passed explicitly: for a target
peer id it reports whether the connection handshake opens within the
timeout.  JavaScript Date.now is modelled as an explicit time argument.
-/

namespace WhisperLine

/-! ### Base64, as implemented by the platform btoa / atob (forgiving decode) -/

def b64chars : List Char :=
  "ABCDEFGHIJKLMNOPQRSTUVWXYZabcdefghijklmnopqrstuvwxyz0123456789+/".data

/-- Character for a six-bit value, as produced by btoa. -/
def sextetChar (n : Nat) : Char := b64chars.getD n 'A'

/-- Index of a character in the base64 alphabet, none for a foreign character. -/
def sextetVal (c : Char) : Option Nat := b64chars.findIdx? (fun x => x == c)

/-- btoa on a byte string: three bytes become four alphabet characters, a
final group of one or two bytes is padded with the pad character. -/
def b64encode : List Nat → List Char
  | [] => []
  | [b1] => [sextetChar (b1 / 4), sextetChar (b1 % 4 * 16), '=', '=']
  | [b1, b2] => [sextetChar (b1 / 4), sextetChar (b1 % 4 * 16 + b2 / 16),
      sextetChar (b2 % 16 * 4), '=']
  | b1 :: b2 :: b3 :: rest =>
      sextetChar (b1 / 4) :: sextetChar (b1 % 4 * 16 + b2 / 16) ::
      sextetChar (b2 % 16 * 4 + b3 / 64) :: sextetChar (b3 % 64) :: b64encode rest

/-- Decoding of groups of sextet characters into bytes; a leftover group of
a single character is an error, leftover bits are discarded (forgiving
base64 decode).  A pad character inside a group makes sextetVal fail. -/
def decodeChunks : List Char → Option (List Nat)
  | [] => some []
  | [_] => none
  | [a, b] =>
      match sextetVal a, sextetVal b with
      | some x, some y => some [x * 4 + y / 16]
      | _, _ => none
  | [a, b, c] =>
      match sextetVal a, sextetVal b, sextetVal c with
      | some x, some y, some z => some [x * 4 + y / 16, y % 16 * 16 + z / 4]
      | _, _, _ => none
  | a :: b :: c :: d :: rest =>
      match sextetVal a, sextetVal b, sextetVal c, sextetVal d, decodeChunks rest with
      | some x, some y, some z, some w, some tail =>
          some ((x * 4 + y / 16) :: (y % 16 * 16 + z / 4) :: (z % 4 * 64 + w) :: tail)
      | _, _, _, _, _ => none

/-- ASCII whitespace removed by the forgiving base64 decode in atob. -/
def isJsSpace (c : Char) : Bool :=
  c = ' ' || c = '\t' || c = '\n' || c = '\r' || c = '\x0c'

/-- Drop one leading pad character. -/
def stripOnePad (l : List Char) : List Char :=
  if l.head? = some '=' then l.tail else l

/-- Drop up to two leading pad characters (applied to the reversed input,
this strips up to two trailing pads). -/
def stripPadRev (l : List Char) : List Char := stripOnePad (stripOnePad l)

/-- Strip up to two trailing pad characters, but only when the length is a
multiple of four, per the forgiving base64 decode. -/
def stripPad (l : List Char) : List Char :=
  if l.length % 4 = 0 then (stripPadRev l.reverse).reverse else l

/-- The platform atob: forgiving base64 decode of a string to a byte string,
none when the input is rejected (atob throws in that case). -/
def atob (s : List Char) : Option (List Nat) :=
  decodeChunks (stripPad (s.filter (fun c => !isJsSpace c)))

/-! ### UTF-8 encoding and strict decoding

In the source, encryptMessage computes btoa applied to
unescape(encodeURIComponent(message)): the inner composition turns the
string into a byte string holding its UTF-8 bytes.  decryptMessage computes
decodeURIComponent(escape(atob(payload))): the outer composition performs a
strict UTF-8 decode of the byte string (overlong forms, surrogate code
points, values beyond the Unicode range and truncated sequences all throw,
which the source catches). -/

def utf8EncodeChar (c : Char) : List Nat :=
  let n := c.toNat
  if n < 0x80 then [n]
  else if n < 0x800 then [0xC0 + n / 64, 0x80 + n % 64]
  else if n < 0x10000 then [0xE0 + n / 4096, 0x80 + n / 64 % 64, 0x80 + n % 64]
  else [0xF0 + n / 262144, 0x80 + n / 4096 % 64, 0x80 + n / 64 % 64, 0x80 + n % 64]

def utf8Encode : List Char → List Nat
  | [] => []
  | c :: t => utf8EncodeChar c ++ utf8Encode t

/-- Continuation of the strict decode after a two-byte lead, given the
decoded remainder of the string. -/
def utf8Dec2 (b1 b2 : Nat) (t : Option (List Char)) : Option (List Char) :=
  if 0x80 ≤ b2 ∧ b2 < 0xC0 then
    let v := (b1 - 0xC0) * 64 + (b2 - 0x80)
    if v < 0x80 then none
    else t.map (fun cs => Char.ofNat v :: cs)
  else none

/-- Continuation of the strict decode after a three-byte lead. -/
def utf8Dec3 (b1 b2 b3 : Nat) (t : Option (List Char)) : Option (List Char) :=
  if (0x80 ≤ b2 ∧ b2 < 0xC0) ∧ (0x80 ≤ b3 ∧ b3 < 0xC0) then
    let v := (b1 - 0xE0) * 4096 + (b2 - 0x80) * 64 + (b3 - 0x80)
    if v < 0x800 ∨ (0xD800 ≤ v ∧ v < 0xE000) then none
    else t.map (fun cs => Char.ofNat v :: cs)
  else none

/-- Continuation of the strict decode after a four-byte lead. -/
def utf8Dec4 (b1 b2 b3 b4 : Nat) (t : Option (List Char)) : Option (List Char) :=
  if (0x80 ≤ b2 ∧ b2 < 0xC0) ∧ (0x80 ≤ b3 ∧ b3 < 0xC0) ∧ (0x80 ≤ b4 ∧ b4 < 0xC0) then
    let v := (b1 - 0xF0) * 262144 + (b2 - 0x80) * 4096 + (b3 - 0x80) * 64 + (b4 - 0x80)
    if v < 0x10000 ∨ 0x110000 ≤ v then none
    else t.map (fun cs => Char.ofNat v :: cs)
  else none

/-- Strict UTF-8 decode of a byte string; a truncated final sequence, a
stray continuation byte, a lead byte above 0xF4, an overlong form, a
surrogate code point or a value beyond the Unicode range all fail. -/
def utf8Decode : List Nat → Option (List Char)
  | [] => some []
  | [b1] =>
      if b1 < 0x80 then (utf8Decode []).map (fun cs => Char.ofNat b1 :: cs)
      else none
  | [b1, b2] =>
      if b1 < 0x80 then (utf8Decode [b2]).map (fun cs => Char.ofNat b1 :: cs)
      else if b1 < 0xC0 then none
      else if b1 < 0xE0 then utf8Dec2 b1 b2 (utf8Decode [])
      else none
  | [b1, b2, b3] =>
      if b1 < 0x80 then (utf8Decode [b2, b3]).map (fun cs => Char.ofNat b1 :: cs)
      else if b1 < 0xC0 then none
      else if b1 < 0xE0 then utf8Dec2 b1 b2 (utf8Decode [b3])
      else if b1 < 0xF0 then utf8Dec3 b1 b2 b3 (utf8Decode [])
      else none
  | b1 :: b2 :: b3 :: b4 :: rest =>
      if b1 < 0x80 then
        (utf8Decode (b2 :: b3 :: b4 :: rest)).map (fun cs => Char.ofNat b1 :: cs)
      else if b1 < 0xC0 then none
      else if b1 < 0xE0 then utf8Dec2 b1 b2 (utf8Decode (b3 :: b4 :: rest))
      else if b1 < 0xF0 then utf8Dec3 b1 b2 b3 (utf8Decode (b4 :: rest))
      else if b1 < 0xF5 then utf8Dec4 b1 b2 b3 b4 (utf8Decode rest)
      else none

/-! ### The crypto service (src/services/crypto.ts, current variant) -/

/-- The literal tag starting every payload produced by encryptMessage. -/
def encryptedTag : List Char := "encrypted_".data

/-- The literal separator between ciphertext and key fingerprint. -/
def viaTag : List Char := "_via_".data

/-- The sentinel returned by decryptMessage when decoding throws. -/
def secureContent : List Char := "[Secure Content]".data

/-- encryptMessage message recipientPublicKey, from crypto.ts: the template
string with btoa(unescape(encodeURIComponent(message))) in the middle and
recipientPublicKey.slice(0, 8) at the end. -/
def encryptMessage (message recipientPublicKey : List Char) : List Char :=
  encryptedTag ++ b64encode (utf8Encode message) ++ viaTag ++ recipientPublicKey.take 8

/-- The replace applied by decryptMessage: replace of the anchored regular
expression matching the leading tag by the empty string. -/
def stripEncTag (s : List Char) : List Char :=
  if encryptedTag.isPrefixOf s then s.drop encryptedTag.length else s

/-- The split applied by decryptMessage: the part of the string before the
first occurrence of the separator, the whole string when there is none
(element zero of the JavaScript split). -/
def splitViaHead : List Char → List Char
  | [] => []
  | c :: rest => if viaTag.isPrefixOf (c :: rest) then [] else c :: splitViaHead rest

/-- decryptMessage encryptedData, from crypto.ts.  The source returns the
input unchanged unless it starts with the tag; otherwise it strips the tag,
splits off the separator, applies atob and then the UTF-8 decode, and any
thrown error is caught and replaced by the sentinel.  Note that the
function takes no key material at all. -/
def decryptMessage (s : List Char) : List Char :=
  if encryptedTag.isPrefixOf s then
    match atob (splitViaHead (stripEncTag s)) with
    | none => secureContent
    | some bytes =>
      match utf8Decode bytes with
      | none => secureContent
      | some cs => cs
  else s

/-- The two browser key-value stores cleared by panicWipe. -/
structure StorageState where
  localStorage : List (List Char × List Char)
  sessionStorage : List (List Char × List Char)
deriving DecidableEq

/-- panicWipe, from crypto.ts: localStorage.clear() and
sessionStorage.clear(). -/
def panicWipe (_st : StorageState) : StorageState :=
  { localStorage := [], sessionStorage := [] }

/-- The scenario of claim C6: run panicWipe on the stores, then run
decryptMessage on a payload.  decryptMessage reads no store, so the wipe
cannot influence its result. -/
def wipeThenDecrypt (st : StorageState) (payload : List Char) :
    StorageState × List Char :=
  (panicWipe st, decryptMessage payload)

/-- encryptMessage lifted to explicit state passing over the module
environment: the source function reads no mutable state and calls no
random-number generator, so the lifted form returns the state unchanged. -/
def encryptMessageSt (st : StorageState) (message recipientPublicKey : List Char) :
    List Char × StorageState :=
  (encryptMessage message recipientPublicKey, st)

/-! ### The data model (src/types.ts) -/

inductive MsgStatus where
  | sent | delivered | read
deriving DecidableEq

inductive MsgType where
  | text | system
deriving DecidableEq

structure Message where
  id : List Char
  sender : List Char
  recipient : List Char
  content : List Char
  timestamp : Nat
  status : MsgStatus
  type : MsgType
  isEphemeral : Option Bool := none
deriving DecidableEq

structure UserProfile where
  username : List Char
  publicKey : List Char
  displayName : Option (List Char) := none
  bio : Option (List Char) := none
  avatarSeed : Option (List Char) := none
  avatarData : Option (List Char) := none
  createdAt : Nat
deriving DecidableEq

/-! ### The signaling service (src/services/signaling.ts) -/

/-- A PeerJS data connection as the service observes it: the remote peer id
and whether the connection is open. -/
structure DataConnection where
  peer : List Char
  isOpen : Bool
deriving DecidableEq

/-- The unique id namespace used on the public PeerJS server
(field ID_PREFIX of the service). -/
def idTag : List Char := "wline_v2_".data

/-- ASCII lowercasing, the effect of toLowerCase on the ASCII usernames
this service handles. -/
def toLower (s : List Char) : List Char := s.map Char.toLower

/-- JavaScript String.replace with a plain-string pattern: replace the first
occurrence of the pattern by the empty string. -/
def replaceFirst (pat : List Char) : List Char → List Char
  | [] => []
  | c :: rest =>
      if pat.isPrefixOf (c :: rest) then (c :: rest).drop pat.length
      else c :: replaceFirst pat rest

/-- The connections field of the service: a JavaScript Map from username to
DataConnection, modelled as an association list with in-place update. -/
def mapHas (k : List Char) (m : List (List Char × DataConnection)) : Bool :=
  m.any (fun e => e.1 == k)

def mapGet? (k : List Char) (m : List (List Char × DataConnection)) :
    Option DataConnection :=
  (m.find? (fun e => e.1 == k)).map Prod.snd

def mapSet (k : List Char) (v : DataConnection) :
    List (List Char × DataConnection) → List (List Char × DataConnection)
  | [] => [(k, v)]
  | e :: t => if e.1 == k then (k, v) :: t else e :: mapSet k v t

/-- The mutable state of the SignalingService: the peer handle created by
init (none before init) and the connections map. -/
structure SvcState where
  peer : Option (List Char)
  connections : List (List Char × DataConnection)
deriving DecidableEq

/-- The remote username computed in setupConnection:
conn.peer.replace(ID_PREFIX, ""). -/
def remoteUsernameOf (conn : DataConnection) : List Char :=
  replaceFirst idTag conn.peer

/-- setupConnection, from signaling.ts: stores the connection in the map
under the username derived from the channel peer id, and registers the data
and close handlers. -/
def setupConnection (st : SvcState) (conn : DataConnection) : SvcState :=
  { st with connections := mapSet (remoteUsernameOf conn) conn st.connections }

/-- The message handed to the registered onMessage callback by the data
handler installed in setupConnection: the handler passes the received
payload through unchanged (onMessageCallback(data as Message)); the
username derived from the channel is not attached to it. -/
def dataHandlerEvent (_conn : DataConnection) (data : Message) : Message := data

/-- connectToUser, from signaling.ts.  The transport oracle says, for a
target peer id, whether the connect handshake opens before the five-second
timeout; when it does, the opened connection carries the target id as its
peer and setupConnection stores it. -/
def connectToUser (st : SvcState) (transport : List Char → Bool)
    (username : List Char) : SvcState × Bool :=
  if st.peer = none then (st, false)
  else if mapHas username st.connections then (st, true)
  else if transport (idTag ++ toLower username) then
    (setupConnection st { peer := idTag ++ toLower username, isOpen := true }, true)
  else (st, false)

inductive SendResult where
  | sent
  | connectionNotOpen
deriving DecidableEq

/-- sendMessage, from signaling.ts: look the recipient up in the
connections map, try connectToUser when absent, then either send over an
open connection or log the connection-not-open error.  Note that in the
error case the message is simply dropped: the service has no pending
outbound queue. -/
def sendMessage (st : SvcState) (transport : List Char → Bool) (msg : Message) :
    SvcState × SendResult :=
  match mapGet? msg.recipient st.connections with
  | some conn =>
      if conn.isOpen then (st, SendResult.sent) else (st, SendResult.connectionNotOpen)
  | none =>
    match connectToUser st transport msg.recipient with
    | (st2, true) =>
      match mapGet? msg.recipient st2.connections with
      | some conn =>
          if conn.isOpen then (st2, SendResult.sent)
          else (st2, SendResult.connectionNotOpen)
      | none => (st2, SendResult.connectionNotOpen)
    | (st2, false) => (st2, SendResult.connectionNotOpen)

/-- findOrCreateUser, from signaling.ts: builds a fresh profile object on
every call; Date.now() is the explicit now argument.  Nothing is stored in
any registry. -/
def findOrCreateUser (now : Nat) (username : List Char) : UserProfile :=
  { username := toLower username
    publicKey := "pub_".data ++ username
    displayName := some username
    avatarSeed := some username
    createdAt := now
    bio := some "Found via P2P Link".data
    avatarData := none }

/-! ### The inbound consumer (src/App.tsx) -/

def msgIds (l : List Message) : List (List Char) := l.map (fun m => m.id)

/-- handleIncomingMessage, from App.tsx: the state update applied to the
messages list when the signaling service delivers a message; a message
whose id is already present leaves the list unchanged. -/
def handleIncomingMessage (msg : Message) (prev : List Message) : List Message :=
  if prev.any (fun m => m.id == msg.id) then prev else prev ++ [msg]

/-- The state update of the polling fetch-interval effect in App.tsx: the
incoming batch is filtered against the set of ids already present and the
remainder appended. -/
def fetchStep (prev incoming : List Message) : List Message :=
  prev ++ incoming.filter (fun m => !((msgIds prev).contains m.id))

/-- Number of entries with the given id in a message list. -/
def countId (i : List Char) (l : List Message) : Nat :=
  (l.filter (fun m => m.id == i)).length

/-- Number of entries under the given key in the connections map. -/
def keyCount (u : List Char) (m : List (List Char × DataConnection)) : Nat :=
  (m.filter (fun e => e.1 = u)).length

/-! ### Helper lemmas: base64 round trip -/

lemma sextetChar_mem (n : Nat) : sextetChar n ∈ b64chars := by
  unfold sextetChar
  by_cases h : n < b64chars.length
  · rw [List.getD_eq_getElem?_getD, List.getElem?_eq_getElem h]
    exact List.getElem_mem h
  · rw [List.getD_eq_getElem?_getD, List.getElem?_eq_none (by omega)]
    decide

lemma b64chars_facts : ∀ c ∈ b64chars, c ≠ '=' ∧ c ≠ '_' ∧ isJsSpace c = false := by
  decide

lemma sextetVal_sextetChar_fin : ∀ n : Fin 64, sextetVal (sextetChar n.val) = some n.val := by
  decide

lemma sextetVal_sextetChar (n : Nat) (h : n < 64) :
    sextetVal (sextetChar n) = some n :=
  sextetVal_sextetChar_fin ⟨n, h⟩

lemma stripPadRev_append (a b : Char) (t s : List Char) :
    stripPadRev (a :: b :: (t ++ s)) = stripPadRev (a :: b :: t) ++ s := by
  by_cases ha : a = '=' <;> by_cases hb : b = '=' <;>
    simp [stripPadRev, stripOnePad, ha, hb]

lemma stripPad_append (C E : List Char) (hC : C.length = 4)
    (hE : E.length % 4 = 0) (hE2 : 2 ≤ E.length) :
    stripPad (C ++ E) = C ++ stripPad E := by
  have hlen : (C ++ E).length % 4 = 0 := by
    rw [List.length_append, hC]; omega
  obtain ⟨a, b, t, hrev⟩ : ∃ a b t, E.reverse = a :: b :: t := by
    rcases hEr : E.reverse with _ | ⟨a, _ | ⟨b, t⟩⟩
    · exfalso
      have h0 : E.length = 0 := by rw [← List.length_reverse E, hEr]; rfl
      omega
    · exfalso
      have h1 : E.length = 1 := by rw [← List.length_reverse E, hEr]; rfl
      omega
    · exact ⟨_, _, _, rfl⟩
  unfold stripPad
  rw [if_pos hlen, if_pos hE]
  rw [List.reverse_append, hrev]
  show (stripPadRev (a :: b :: (t ++ C.reverse))).reverse = _
  rw [stripPadRev_append, List.reverse_append, List.reverse_reverse]

lemma stripPad_pad2 (a b : Char) : stripPad [a, b, '=', '='] = [a, b] := by
  simp [stripPad, stripPadRev, stripOnePad]

lemma stripPad_pad1 (a b c : Char) (hc : c ≠ '=') :
    stripPad [a, b, c, '='] = [a, b, c] := by
  simp [stripPad, stripPadRev, stripOnePad, hc]

lemma stripPad_nopad (a b c d : Char) (hd : d ≠ '=') :
    stripPad [a, b, c, d] = [a, b, c, d] := by
  simp [stripPad, stripPadRev, stripOnePad, hd]

lemma b64_aux : ∀ (n : Nat) (bytes : List Nat), bytes.length ≤ n →
    (∀ b ∈ bytes, b < 256) →
    (∀ c ∈ b64encode bytes, c ∈ '=' :: b64chars) ∧
    (b64encode bytes).length % 4 = 0 ∧
    (bytes = [] ∨ 4 ≤ (b64encode bytes).length) ∧
    decodeChunks (stripPad (b64encode bytes)) = some bytes := by
  intro n
  induction n with
  | zero =>
    intro bytes hlen _
    have : bytes = [] := List.length_eq_zero.mp (by omega)
    subst this
    refine ⟨by simp [b64encode], by simp [b64encode], Or.inl rfl, ?_⟩
    simp [b64encode, stripPad, stripPadRev, stripOnePad, decodeChunks]
  | succ n ih =>
    intro bytes hlen hb
    rcases bytes with _ | ⟨b1, _ | ⟨b2, _ | ⟨b3, rest⟩⟩⟩
    · refine ⟨by simp [b64encode], by simp [b64encode], Or.inl rfl, ?_⟩
      simp [b64encode, stripPad, stripPadRev, stripOnePad, decodeChunks]
    · have hb1 : b1 < 256 := hb b1 (by simp)
      refine ⟨?_, by simp [b64encode], Or.inr (by simp [b64encode]), ?_⟩
      · intro c hc
        simp only [b64encode, List.mem_cons, List.not_mem_nil, or_false] at hc
        rcases hc with h | h | h | h <;> subst h
        · exact List.mem_cons_of_mem _ (sextetChar_mem _)
        · exact List.mem_cons_of_mem _ (sextetChar_mem _)
        · exact List.mem_cons_self _ _
        · exact List.mem_cons_self _ _
      · show decodeChunks (stripPad [_, _, '=', '=']) = _
        rw [stripPad_pad2]
        show decodeChunks [sextetChar (b1 / 4), sextetChar (b1 % 4 * 16)] = _
        rw [decodeChunks, sextetVal_sextetChar _ (by omega),
          sextetVal_sextetChar _ (by omega)]
        simp only [Option.some.injEq, List.cons.injEq, and_true]
        omega
    · have hb1 : b1 < 256 := hb b1 (by simp)
      have hb2 : b2 < 256 := hb b2 (by simp)
      refine ⟨?_, by simp [b64encode], Or.inr (by simp [b64encode]), ?_⟩
      · intro c hc
        simp only [b64encode, List.mem_cons, List.not_mem_nil, or_false] at hc
        rcases hc with h | h | h | h <;> subst h
        · exact List.mem_cons_of_mem _ (sextetChar_mem _)
        · exact List.mem_cons_of_mem _ (sextetChar_mem _)
        · exact List.mem_cons_of_mem _ (sextetChar_mem _)
        · exact List.mem_cons_self _ _
      · show decodeChunks (stripPad [_, _, _, '=']) = _
        rw [stripPad_pad1 _ _ _ ((b64chars_facts _ (sextetChar_mem _)).1)]
        show decodeChunks
          [sextetChar (b1 / 4), sextetChar (b1 % 4 * 16 + b2 / 16),
            sextetChar (b2 % 16 * 4)] = _
        rw [decodeChunks, sextetVal_sextetChar _ (by omega),
          sextetVal_sextetChar _ (by omega), sextetVal_sextetChar _ (by omega)]
        simp only [Option.some.injEq, List.cons.injEq, and_true]
        constructor <;> omega
    · have hb1 : b1 < 256 := hb b1 (by simp)
      have hb2 : b2 < 256 := hb b2 (by simp)
      have hb3 : b3 < 256 := hb b3 (by simp)
      have hrest : ∀ b ∈ rest, b < 256 := fun b hbr => hb b (by simp [hbr])
      have hlenr : rest.length ≤ n := by simp at hlen; omega
      obtain ⟨ihmem, ihlen, ihge, ihdec⟩ := ih rest hlenr hrest
      have henc : b64encode (b1 :: b2 :: b3 :: rest) =
          sextetChar (b1 / 4) :: sextetChar (b1 % 4 * 16 + b2 / 16) ::
          sextetChar (b2 % 16 * 4 + b3 / 64) :: sextetChar (b3 % 64) ::
          b64encode rest := rfl
      refine ⟨?_, ?_, Or.inr ?_, ?_⟩
      · intro c hc
        rw [henc] at hc
        simp only [List.mem_cons] at hc
        rcases hc with h | h | h | h | h
        · subst h; exact List.mem_cons_of_mem _ (sextetChar_mem _)
        · subst h; exact List.mem_cons_of_mem _ (sextetChar_mem _)
        · subst h; exact List.mem_cons_of_mem _ (sextetChar_mem _)
        · subst h; exact List.mem_cons_of_mem _ (sextetChar_mem _)
        · exact ihmem c h
      · rw [henc]; simp; omega
      · rw [henc]; simp
      · rw [henc]

        rcases ihge with hnil | hge
        · subst hnil
          show decodeChunks (stripPad [_, _, _, _]) = _
          rw [stripPad_nopad _ _ _ _ ((b64chars_facts _ (sextetChar_mem _)).1)]
          rw [decodeChunks, sextetVal_sextetChar _ (by omega),
            sextetVal_sextetChar _ (by omega), sextetVal_sextetChar _ (by omega),
            sextetVal_sextetChar _ (by omega)]
          show some _ = _
          simp only [Option.some.injEq, List.cons.injEq, and_true]
          refine ⟨by omega, by omega, by omega⟩
        · have : sextetChar (b1 / 4) :: sextetChar (b1 % 4 * 16 + b2 / 16) ::
              sextetChar (b2 % 16 * 4 + b3 / 64) :: sextetChar (b3 % 64) ::
              b64encode rest =
              [sextetChar (b1 / 4), sextetChar (b1 % 4 * 16 + b2 / 16),
                sextetChar (b2 % 16 * 4 + b3 / 64), sextetChar (b3 % 64)] ++
              b64encode rest := rfl
          rw [this, stripPad_append _ _ (by simp) ihlen (by omega)]
          show decodeChunks (_ :: _ :: _ :: _ :: stripPad (b64encode rest)) = _
          rw [decodeChunks, sextetVal_sextetChar _ (by omega),
            sextetVal_sextetChar _ (by omega), sextetVal_sextetChar _ (by omega),
            sextetVal_sextetChar _ (by omega), ihdec]
          show some _ = _
          simp only [Option.some.injEq, List.cons.injEq, and_true]
          refine ⟨by omega, by omega, by omega⟩

lemma b64encode_mem_alpha (bytes : List Nat) (hb : ∀ b ∈ bytes, b < 256) :
    ∀ c ∈ b64encode bytes, c ∈ '=' :: b64chars :=
  (b64_aux bytes.length bytes le_rfl hb).1

/-- atob inverts btoa on byte strings. -/
lemma atob_b64encode (bytes : List Nat) (hb : ∀ b ∈ bytes, b < 256) :
    atob (b64encode bytes) = some bytes := by
  have hfilter : (b64encode bytes).filter (fun c => !isJsSpace c) = b64encode bytes := by
    rw [List.filter_eq_self]
    intro c hc
    have hmem := b64encode_mem_alpha bytes hb c hc
    rcases List.mem_cons.mp hmem with h | h
    · subst h; decide
    · simp [(b64chars_facts c h).2.2]
  unfold atob
  rw [hfilter]
  exact (b64_aux bytes.length bytes le_rfl hb).2.2.2

lemma b64encode_not_underscore (bytes : List Nat) (hb : ∀ b ∈ bytes, b < 256) :
    '_' ∉ b64encode bytes := by
  intro hmem
  have h := b64encode_mem_alpha bytes hb '_' hmem
  rcases List.mem_cons.mp h with h | h
  · exact absurd h (by decide)
  · exact absurd rfl (b64chars_facts '_' h).2.1

/-! ### Helper lemmas: UTF-8 round trip -/

lemma char_valid_nat (c : Char) :
    c.toNat < 0xD800 ∨ (0xDFFF < c.toNat ∧ c.toNat < 0x110000) := c.valid

lemma utf8EncodeChar_bytes_lt (c : Char) : ∀ b ∈ utf8EncodeChar c, b < 256 := by
  intro b hb
  have hv := char_valid_nat c
  simp only [utf8EncodeChar] at hb
  split at hb
  · simp at hb; omega
  · split at hb
    · simp at hb
      rcases hb with h | h <;> omega
    · split at hb
      · simp at hb
        rcases hb with h | h | h <;> omega
      · simp at hb
        rcases hb with h | h | h | h <;> omega

lemma utf8Encode_bytes_lt (s : List Char) : ∀ b ∈ utf8Encode s, b < 256 := by
  induction s with
  | nil => intro b hb; simp [utf8Encode] at hb
  | cons c t ih =>
    intro b hb
    rcases List.mem_append.mp hb with h | h
    · exact utf8EncodeChar_bytes_lt c b h
    · exact ih b h

lemma utf8Decode_low (b : Nat) (h : b < 0x80) (rest : List Nat) :
    utf8Decode (b :: rest) = (utf8Decode rest).map (fun cs => Char.ofNat b :: cs) := by
  rcases rest with _ | ⟨t1, _ | ⟨t2, _ | ⟨t3, tr⟩⟩⟩ <;>
    simp only [utf8Decode] <;> rw [if_pos h]

lemma utf8Decode_twoByte (b1 b2 : Nat) (h1 : 0xC0 ≤ b1) (h2 : b1 < 0xE0)
    (rest : List Nat) :
    utf8Decode (b1 :: b2 :: rest) = utf8Dec2 b1 b2 (utf8Decode rest) := by
  rcases rest with _ | ⟨t1, _ | ⟨t2, tr⟩⟩ <;>
    simp only [utf8Decode] <;>
    rw [if_neg (by omega), if_neg (by omega), if_pos h2]

lemma utf8Decode_threeByte (b1 b2 b3 : Nat) (h1 : 0xE0 ≤ b1) (h2 : b1 < 0xF0)
    (rest : List Nat) :
    utf8Decode (b1 :: b2 :: b3 :: rest) = utf8Dec3 b1 b2 b3 (utf8Decode rest) := by
  rcases rest with _ | ⟨t1, tr⟩ <;>
    simp only [utf8Decode] <;>
    rw [if_neg (by omega), if_neg (by omega), if_neg (by omega), if_pos h2]

lemma utf8Decode_fourByte (b1 b2 b3 b4 : Nat) (h1 : 0xF0 ≤ b1) (h2 : b1 < 0xF5)
    (rest : List Nat) :
    utf8Decode (b1 :: b2 :: b3 :: b4 :: rest) = utf8Dec4 b1 b2 b3 b4 (utf8Decode rest) := by
  simp only [utf8Decode]
  rw [if_neg (by omega), if_neg (by omega), if_neg (by omega), if_neg (by omega),
    if_pos h2]

lemma utf8Decode_encodeChar (c : Char) (tail : List Nat) :
    utf8Decode (utf8EncodeChar c ++ tail) = (utf8Decode tail).map (fun cs => c :: cs) := by
  have hv := char_valid_nat c
  have hofn : Char.ofNat c.toNat = c := Char.ofNat_toNat c
  set n := c.toNat with hn
  by_cases h1 : n < 0x80
  · have henc : utf8EncodeChar c = [n] := by
      unfold utf8EncodeChar; rw [← hn, if_pos h1]
    rw [henc]
    show utf8Decode (n :: tail) = _
    rw [utf8Decode_low n h1, hofn]
  · by_cases h2 : n < 0x800
    · have henc : utf8EncodeChar c = [0xC0 + n / 64, 0x80 + n % 64] := by
        unfold utf8EncodeChar; rw [← hn, if_neg h1, if_pos h2]
      rw [henc]
      show utf8Decode ((0xC0 + n / 64) :: (0x80 + n % 64) :: tail) = _
      rw [utf8Decode_twoByte _ _ (by omega) (by omega)]
      unfold utf8Dec2
      rw [if_pos (by constructor <;> omega)]
      have hval : (0xC0 + n / 64 - 0xC0) * 64 + (0x80 + n % 64 - 0x80) = n := by omega
      simp only [hval]
      rw [if_neg (by omega), hofn]
    · by_cases h3 : n < 0x10000
      · have henc : utf8EncodeChar c =
            [0xE0 + n / 4096, 0x80 + n / 64 % 64, 0x80 + n % 64] := by
          unfold utf8EncodeChar; rw [← hn, if_neg h1, if_neg h2, if_pos h3]
        rw [henc]
        show utf8Decode
          ((0xE0 + n / 4096) :: (0x80 + n / 64 % 64) :: (0x80 + n % 64) :: tail) = _
        rw [utf8Decode_threeByte _ _ _ (by omega) (by omega)]
        unfold utf8Dec3
        rw [if_pos (by refine ⟨⟨?_, ?_⟩, ?_, ?_⟩ <;> omega)]
        have hval : (0xE0 + n / 4096 - 0xE0) * 4096 + (0x80 + n / 64 % 64 - 0x80) * 64 +
            (0x80 + n % 64 - 0x80) = n := by omega
        simp only [hval]
        rw [if_neg (by omega), hofn]
      · have h4 : n < 0x110000 := by omega
        have henc : utf8EncodeChar c =
            [0xF0 + n / 262144, 0x80 + n / 4096 % 64, 0x80 + n / 64 % 64, 0x80 + n % 64] := by
          unfold utf8EncodeChar; rw [← hn, if_neg h1, if_neg h2, if_neg h3]
        rw [henc]
        show utf8Decode ((0xF0 + n / 262144) :: (0x80 + n / 4096 % 64) ::
          (0x80 + n / 64 % 64) :: (0x80 + n % 64) :: tail) = _
        rw [utf8Decode_fourByte _ _ _ _ (by omega) (by omega)]
        unfold utf8Dec4
        rw [if_pos (by refine ⟨⟨?_, ?_⟩, ⟨?_, ?_⟩, ?_, ?_⟩ <;> omega)]
        have hval : (0xF0 + n / 262144 - 0xF0) * 262144 +
            (0x80 + n / 4096 % 64 - 0x80) * 4096 +
            (0x80 + n / 64 % 64 - 0x80) * 64 + (0x80 + n % 64 - 0x80) = n := by omega
        simp only [hval]
        rw [if_neg (by omega), hofn]

/-- The strict UTF-8 decode inverts the UTF-8 encode. -/
lemma utf8Decode_utf8Encode (s : List Char) : utf8Decode (utf8Encode s) = some s := by
  induction s with
  | nil => rfl
  | cons c t ih =>
    show utf8Decode (utf8EncodeChar c ++ utf8Encode t) = _
    rw [utf8Decode_encodeChar, ih, Option.map_some']

/-! ### Helper lemmas: the encrypt-decrypt round trip -/

lemma viaTag_first : viaTag = '_' :: "via_".data := rfl

lemma splitViaHead_append (l t : List Char) (hl : '_' ∉ l) :
    splitViaHead (l ++ (viaTag ++ t)) = l := by
  induction l with
  | nil =>
    show splitViaHead ('_' :: ("via_".data ++ t)) = []
    rw [splitViaHead]
    rw [if_pos ?_]
    show viaTag.isPrefixOf ('_' :: "via_".data ++ t) = true
    rw [List.isPrefixOf_iff_prefix]
    exact List.prefix_append _ _
  | cons c l ih =>
    have hc : c ≠ '_' := fun h => hl (h ▸ List.mem_cons_self c l)
    have hl2 : '_' ∉ l := fun h => hl (List.mem_cons_of_mem c h)
    show splitViaHead (c :: (l ++ (viaTag ++ t))) = c :: l
    rw [splitViaHead, if_neg, ih hl2]
    intro hpre
    rw [viaTag_first, List.isPrefixOf_iff_prefix] at hpre
    obtain ⟨s, hs⟩ := hpre
    rw [List.cons_append] at hs
    have : '_' = c := (List.cons.injEq _ _ _ _).mp hs |>.1
    exact hc this.symm

/-- The round trip of the crypto service of the source: decryptMessage
recovers the plaintext from any payload made by encryptMessage, for any
recipient key; the decryption uses no key material. -/
lemma decrypt_encrypt (P K : List Char) :
    decryptMessage (encryptMessage P K) = P := by
  have hbytes := utf8Encode_bytes_lt P
  have hpre2 : encryptedTag.isPrefixOf
      (encryptedTag ++ (b64encode (utf8Encode P) ++ (viaTag ++ K.take 8))) = true := by
    rw [List.isPrefixOf_iff_prefix]
    exact List.prefix_append _ _
  have hform : encryptMessage P K =
      encryptedTag ++ (b64encode (utf8Encode P) ++ (viaTag ++ K.take 8)) := by
    unfold encryptMessage
    rw [List.append_assoc, List.append_assoc]
  rw [hform]
  unfold decryptMessage
  rw [if_pos hpre2]
  have hstrip : stripEncTag
      (encryptedTag ++ (b64encode (utf8Encode P) ++ (viaTag ++ K.take 8))) =
      b64encode (utf8Encode P) ++ (viaTag ++ K.take 8) := by
    unfold stripEncTag
    rw [if_pos hpre2, List.drop_left]
  rw [hstrip, splitViaHead_append _ _ (b64encode_not_underscore _ hbytes),
    atob_b64encode _ hbytes]
  show (match utf8Decode (utf8Encode P) with
    | none => secureContent
    | some cs => cs) = P
  rw [utf8Decode_utf8Encode]

/-! ### Helper lemmas: the signaling service and the inbound consumer -/

lemma mapGet?_some_has (k : List Char) (m : List (List Char × DataConnection))
    (conn : DataConnection) (h : mapGet? k m = some conn) : mapHas k m = true := by
  unfold mapGet? at h
  rcases hf : m.find? (fun e => e.1 == k) with _ | e
  · rw [hf] at h; simp at h
  · have hmem := List.mem_of_find?_eq_some hf
    have hpred := List.find?_some hf
    unfold mapHas
    rw [List.any_eq_true]
    exact ⟨e, hmem, hpred⟩

lemma mapGet?_some_mem_fst (k : List Char) (m : List (List Char × DataConnection))
    (conn : DataConnection) (h : mapGet? k m = some conn) : k ∈ m.map Prod.fst := by
  unfold mapGet? at h
  rcases hf : m.find? (fun e => e.1 == k) with _ | e
  · rw [hf] at h; simp at h
  · have hmem := List.mem_of_find?_eq_some hf
    have hpred := List.find?_some hf
    have hk : e.1 = k := by
      have := hpred
      simpa [beq_iff_eq] using this
    exact hk ▸ List.mem_map_of_mem Prod.fst hmem

lemma keyCount_one (u : List Char) (m : List (List Char × DataConnection))
    (hnd : (m.map Prod.fst).Nodup) (hmem : u ∈ m.map Prod.fst) : keyCount u m = 1 := by
  induction m with
  | nil => simp at hmem
  | cons e t ih =>
    simp only [List.map_cons, List.nodup_cons] at hnd
    obtain ⟨hnotin, hndt⟩ := hnd
    by_cases he : e.1 = u
    · unfold keyCount
      rw [List.filter_cons_of_pos (by simp [he])]
      have hnil : t.filter (fun x => decide (x.1 = u)) = [] := by
        rw [List.filter_eq_nil_iff]
        intro x hx hxu
        apply hnotin
        have : x.1 = e.1 := by
          simp at hxu
          rw [hxu, he]
        exact this ▸ List.mem_map_of_mem Prod.fst hx
      rw [hnil]
      rfl
    · unfold keyCount
      rw [List.filter_cons_of_neg (by simp [he])]
      have hmem2 : u ∈ t.map Prod.fst := by
        rcases List.mem_cons.mp hmem with h | h
        · exact absurd h.symm he
        · exact h
      exact ih hndt hmem2

lemma connectToUser_false (st : SvcState) (tr : List Char → Bool) (u : List Char)
    (h : (connectToUser st tr u).2 = false) : connectToUser st tr u = (st, false) := by
  unfold connectToUser at h ⊢
  by_cases hp : st.peer = none
  · rw [if_pos hp]
  · rw [if_neg hp] at h ⊢
    by_cases hhas : mapHas u st.connections = true
    · rw [if_pos hhas] at h
      exact absurd h (by simp)
    · rw [if_neg hhas] at h ⊢
      by_cases htr : tr (idTag ++ toLower u) = true
      · rw [if_pos htr] at h
        exact absurd h (by simp)
      · rw [if_neg htr]

lemma handleIncoming_idem (msg : Message) (prev : List Message) :
    handleIncomingMessage msg (handleIncomingMessage msg prev) =
      handleIncomingMessage msg prev := by
  unfold handleIncomingMessage
  by_cases h : prev.any (fun m => m.id == msg.id) = true
  · rw [if_pos h, if_pos h]
  · rw [if_neg h, if_pos ?_]
    rw [List.any_append]
    simp

lemma handleIncoming_count (msg : Message) (prev : List Message) :
    countId msg.id (handleIncomingMessage msg prev) ≤ countId msg.id prev + 1 := by
  unfold handleIncomingMessage countId
  by_cases h : prev.any (fun m => m.id == msg.id) = true
  · rw [if_pos h]; omega
  · rw [if_neg h, List.filter_append, List.length_append]
    simp

lemma handleIncoming_already (msg : Message) (prev : List Message)
    (h : prev.any (fun m => m.id == msg.id) = true) :
    handleIncomingMessage msg prev = prev := by
  unfold handleIncomingMessage
  rw [if_pos h]

lemma fetchStep_idem (prev batch : List Message) :
    fetchStep (fetchStep prev batch) batch = fetchStep prev batch := by
  unfold fetchStep
  suffices hnil : batch.filter
      (fun m => !((msgIds (prev ++ batch.filter
        (fun m => !((msgIds prev).contains m.id)))).contains m.id)) = [] by
    rw [hnil, List.append_nil]
  rw [List.filter_eq_nil_iff]
  intro m hm
  simp only [Bool.not_eq_true', Bool.not_eq_false]
  have hmem : m.id ∈ msgIds (prev ++ batch.filter
      (fun m => !((msgIds prev).contains m.id))) := by
    unfold msgIds
    rw [List.map_append]
    by_cases hc : m.id ∈ prev.map (fun m => m.id)
    · exact List.mem_append_left _ hc
    · have hcf : (msgIds prev).contains m.id = false := by
        unfold msgIds
        rw [Bool.eq_false_iff]
        intro habs
        exact hc (List.elem_iff.mp habs)
      have hmf : m ∈ batch.filter (fun m => !((msgIds prev).contains m.id)) :=
        List.mem_filter.mpr ⟨hm, by rw [hcf]; rfl⟩
      exact List.mem_append_right _ (List.mem_map_of_mem (fun m => m.id) hmf)
  exact List.elem_iff.mpr hmem

/-! ### Claim theorems -/

/-- Claim C1: delivering a message whose id was already delivered through
the inbound receive path leaves the stored message list unchanged, so the
consumer list gains at most one entry per id and the second delivery is
dropped silently; the polling fetch path is likewise idempotent when the
same batch is delivered twice. -/
theorem claim1_duplicate_delivery_dropped (msg : Message) (prev : List Message) :
    handleIncomingMessage msg (handleIncomingMessage msg prev) =
        handleIncomingMessage msg prev ∧
    countId msg.id (handleIncomingMessage msg prev) ≤ countId msg.id prev + 1 ∧
    (∀ prev2 batch : List Message,
      fetchStep (fetchStep prev2 batch) batch = fetchStep prev2 batch) :=
  ⟨handleIncoming_idem msg prev, handleIncoming_count msg prev,
    fun prev2 batch => fetchStep_idem prev2 batch⟩

/-- Claim C2 counterexample: a payload encrypted for the key pub_alicekey
decrypts back to the original plaintext even though the session key
pub_bob_key9 of the claim differs from it, because decryptMessage takes no
key material at all; the claimed KeyMismatch failure never occurs and the
plaintext is returned. -/
theorem claim2_counterexample :
    decryptMessage (encryptMessage "hi".data "pub_alicekey".data) = "hi".data ∧
    "pub_alicekey".data ≠ "pub_bob_key9".data :=
  ⟨decrypt_encrypt _ _, by decide⟩

/-- Claim C2 amended: decrypting a payload produced by encryptMessage for a
recipient key K1 in the session of any distinct key K2 never crashes, but
it returns the original plaintext rather than a typed KeyMismatch failure,
because decryptMessage ignores key material entirely. -/
theorem claim2_amended (P K1 K2 : List Char) (_hne : K1 ≠ K2) :
    decryptMessage (encryptMessage P K1) = P :=
  decrypt_encrypt P K1

/-- Claim C2 amended witness at concrete inputs. -/
theorem claim2_amended_witness :
    decryptMessage (encryptMessage "hey".data "pub_carolkey".data) = "hey".data :=
  claim2_amended "hey".data "pub_carolkey".data "pub_davekey0".data (by decide)

/-- Claim C3: for every plaintext P (Lean characters are exactly the valid
Unicode scalar values, so every modelled plaintext is well formed) and
every peer key K, decrypting the payload produced by encryptMessage
returns exactly P. -/
theorem claim3_roundtrip (P K : List Char) :
    decryptMessage (encryptMessage P K) = P :=
  decrypt_encrypt P K

/-- Claim C4 counterexample: with an initialised peer, no existing
connection and a transport whose handshake never opens, sendMessage
returns the state unchanged together with the connection-not-open error:
the message is dropped, and no pending outbound queue exists anywhere in
the service state, contradicting the claim that the message is appended to
the Pending Outbound Queue of the recipient. -/
theorem claim4_counterexample :
    sendMessage { peer := some "wline_v2_me".data, connections := [] }
        (fun _ => false)
        { id := "m1".data, sender := "me".data, recipient := "bob".data,
          content := "encrypted_x".data, timestamp := 0,
          status := MsgStatus.sent, type := MsgType.text } =
      ({ peer := some "wline_v2_me".data, connections := [] },
        SendResult.connectionNotOpen) := by
  decide

/-- Claim C4 amended: when the recipient has no stored connection and the
channel establishment fails, sendMessage leaves the service state
unchanged and reports the connection-not-open error; the message is
dropped rather than queued, since the service has no pending outbound
queue. -/
theorem claim4_amended (st : SvcState) (transport : List Char → Bool) (msg : Message)
    (hmiss : mapGet? msg.recipient st.connections = none)
    (hfail : (connectToUser st transport msg.recipient).2 = false) :
    sendMessage st transport msg = (st, SendResult.connectionNotOpen) := by
  have hconn := connectToUser_false st transport msg.recipient hfail
  simp only [sendMessage, hmiss, hconn]

/-- Claim C4 amended witness at concrete inputs. -/
theorem claim4_amended_witness :
    sendMessage { peer := some "wline_v2_me".data, connections := [] }
        (fun _ => false)
        { id := "m7".data, sender := "me".data, recipient := "carol".data,
          content := "encrypted_y".data, timestamp := 3,
          status := MsgStatus.sent, type := MsgType.text } =
      ({ peer := some "wline_v2_me".data, connections := [] },
        SendResult.connectionNotOpen) :=
  claim4_amended _ _ _ (by decide) (by decide)

/-- Claim C5 counterexample: two payloads received on the same open channel
but carrying different sender fields are delivered with those different
senders, and neither is forced to equal the username derived from the
channel peer identity: the inbound callback sees the unauthenticated
payload sender, contradicting the claim that attribution derives from the
channel identity. -/
theorem claim5_counterexample :
    (dataHandlerEvent { peer := "wline_v2_alice".data, isOpen := true }
        { id := "m1".data, sender := "mallory".data, recipient := "me".data,
          content := "x".data, timestamp := 0, status := MsgStatus.sent,
          type := MsgType.text }).sender ≠
      (dataHandlerEvent { peer := "wline_v2_alice".data, isOpen := true }
        { id := "m2".data, sender := "alice".data, recipient := "me".data,
          content := "x".data, timestamp := 0, status := MsgStatus.sent,
          type := MsgType.text }).sender ∧
    (dataHandlerEvent { peer := "wline_v2_alice".data, isOpen := true }
        { id := "m1".data, sender := "mallory".data, recipient := "me".data,
          content := "x".data, timestamp := 0, status := MsgStatus.sent,
          type := MsgType.text }).sender ≠
      remoteUsernameOf { peer := "wline_v2_alice".data, isOpen := true } := by
  decide

/-- Claim C5 amended: the data handler installed by setupConnection passes
the payload to the registered callback verbatim, independently of the
channel it arrived on, so the sender the consumer sees is whatever sender
field the payload carries; the username derived from the channel peer
identity is used only as the key of the connections table. -/
theorem claim5_amended (conn1 conn2 : DataConnection) (data : Message)
    (s : List Char) (st : SvcState) :
    dataHandlerEvent conn1 data = data ∧
    dataHandlerEvent conn1 data = dataHandlerEvent conn2 data ∧
    (dataHandlerEvent conn1 { data with sender := s }).sender = s ∧
    (setupConnection st conn1).connections =
      mapSet (remoteUsernameOf conn1) conn1 st.connections :=
  ⟨rfl, rfl, rfl, rfl⟩

/-- Claim C6 counterexample: after panicWipe clears both storages, a
payload that was validly encrypted before the wipe still decrypts to the
original plaintext, contradicting the claim that decryption after the wipe
never returns the original plaintext; decryptMessage reads no local key
material. -/
theorem claim6_counterexample :
    (wipeThenDecrypt
        { localStorage := [("identityKey".data, "priv123".data)],
          sessionStorage := [("session".data, "s1".data)] }
        (encryptMessage "hi".data "pub_k1".data)).2 = "hi".data ∧
    (wipeThenDecrypt
        { localStorage := [("identityKey".data, "priv123".data)],
          sessionStorage := [("session".data, "s1".data)] }
        (encryptMessage "hi".data "pub_k1".data)).1 =
      { localStorage := [], sessionStorage := [] } := by
  refine ⟨?_, rfl⟩
  show decryptMessage (encryptMessage "hi".data "pub_k1".data) = "hi".data
  exact decrypt_encrypt _ _

/-- Claim C6 amended: panicWipe empties both storages, and every subsequent
decryptMessage call applied to a payload validly encrypted before the wipe
still returns the original plaintext, because the decryption uses no local
key material. -/
theorem claim6_amended (st : StorageState) (P K : List Char) :
    (wipeThenDecrypt st (encryptMessage P K)).2 = P ∧
    (wipeThenDecrypt st (encryptMessage P K)).1 =
      { localStorage := [], sessionStorage := [] } := by
  refine ⟨?_, rfl⟩
  show decryptMessage (encryptMessage P K) = P
  exact decrypt_encrypt P K

/-- Claim C7 counterexample: two calls of findOrCreateUser for the same
username at different times return different profiles (the createdAt field
is the call time), so the second call does not return the identical
identity; moreover the username of the returned profile is lowercased but
not trimmed, so for an input with surrounding whitespace it differs from
the fully normalized username. -/
theorem claim7_counterexample :
    findOrCreateUser 0 "bob".data ≠ findOrCreateUser 1 "bob".data ∧
    (findOrCreateUser 0 "Bob ".data).username ≠ "bob".data := by
  decide

/-- Claim C7 amended: findOrCreateUser never fails and deterministically
builds a profile whose username is the lowercased (untrimmed) input and
whose publicKey is the pub_ tag followed by the raw input; nothing is
registered in any registry, and two calls agree on every field except
createdAt, which records the call time — in particular the publicKey is
identical across calls. -/
theorem claim7_amended (t1 t2 : Nat) (u : List Char) :
    (findOrCreateUser t1 u).username = toLower u ∧
    (findOrCreateUser t1 u).publicKey = "pub_".data ++ u ∧
    (findOrCreateUser t1 u).publicKey = (findOrCreateUser t2 u).publicKey ∧
    (findOrCreateUser t1 u).username = (findOrCreateUser t2 u).username ∧
    (findOrCreateUser t1 u).displayName = (findOrCreateUser t2 u).displayName ∧
    (findOrCreateUser t1 u).createdAt = t1 :=
  ⟨rfl, rfl, rfl, rfl, rfl, rfl⟩

/-- Claim C8: when the peer is initialised and the connections table holds
an open channel under the given username, connectToUser returns success
with the state unchanged for every transport (so no new handshake is
initiated), and the table holds exactly one entry for that username
afterwards. -/
theorem claim8_connect_idempotent (st : SvcState) (transport : List Char → Bool)
    (u p : List Char) (conn : DataConnection)
    (hpeer : st.peer = some p)
    (hfound : mapGet? u st.connections = some conn)
    (_hopen : conn.isOpen = true)
    (hnodup : (st.connections.map Prod.fst).Nodup) :
    connectToUser st transport u = (st, true) ∧ keyCount u st.connections = 1 := by
  constructor
  · unfold connectToUser
    rw [if_neg (by rw [hpeer]; simp), if_pos (mapGet?_some_has _ _ _ hfound)]
  · exact keyCount_one u st.connections hnodup (mapGet?_some_mem_fst _ _ _ hfound)

/-- Claim C8 witness at a concrete state with one open channel. -/
theorem claim8_witness :
    connectToUser
        { peer := some "wline_v2_me".data,
          connections := [("alice".data,
            { peer := "wline_v2_alice".data, isOpen := true })] }
        (fun _ => false) "alice".data =
      ({ peer := some "wline_v2_me".data,
          connections := [("alice".data,
            { peer := "wline_v2_alice".data, isOpen := true })] }, true) ∧
    keyCount "alice".data
        [("alice".data, { peer := "wline_v2_alice".data, isOpen := true })] = 1 :=
  claim8_connect_idempotent _ (fun _ => false) "alice".data "wline_v2_me".data
    { peer := "wline_v2_alice".data, isOpen := true } rfl rfl rfl (by decide)

/-- Claim C9: encryptMessage is deterministic and stateless: lifted to
explicit state passing over the module environment, its output does not
depend on the state, the state is returned unchanged, and the payload is a
pure function of the plaintext and the recipient key. -/
theorem claim9_encrypt_deterministic (st1 st2 : StorageState) (m k : List Char) :
    (encryptMessageSt st1 m k).1 = (encryptMessageSt st2 m k).1 ∧
    (encryptMessageSt st1 m k).2 = st1 ∧
    (encryptMessageSt st1 m k).1 = encryptMessage m k :=
  ⟨rfl, rfl, rfl⟩

/-- Claim C10: decryptMessage is total: it returns the input unchanged when
the input does not start with the encrypted tag, and otherwise returns
either the sentinel or a successfully decoded plaintext. -/
theorem claim10_decrypt_total (s : List Char) :
    (encryptedTag.isPrefixOf s = false → decryptMessage s = s) ∧
    (encryptedTag.isPrefixOf s = true →
      decryptMessage s = secureContent ∨
      ∃ bytes cs, atob (splitViaHead (stripEncTag s)) = some bytes ∧
        utf8Decode bytes = some cs ∧ decryptMessage s = cs) := by
  constructor
  · intro h
    unfold decryptMessage
    rw [if_neg (by rw [h]; simp)]
  · intro h
    rcases ha : atob (splitViaHead (stripEncTag s)) with _ | bytes
    · left
      unfold decryptMessage
      rw [if_pos h, ha]
    · rcases hd : utf8Decode bytes with _ | cs
      · left
        unfold decryptMessage
        rw [if_pos h, ha]
        show (match utf8Decode bytes with
          | none => secureContent
          | some cs => cs) = secureContent
        rw [hd]
      · right
        refine ⟨bytes, cs, rfl, hd, ?_⟩
        unfold decryptMessage
        rw [if_pos h, ha]
        show (match utf8Decode bytes with
          | none => secureContent
          | some cs => cs) = cs
        rw [hd]

/-- Claim C10 witness: a string without the tag is returned unchanged, and
a tagged string with an undecodable body yields the sentinel branch. -/
theorem claim10_witness :
    decryptMessage "plain".data = "plain".data ∧
    (decryptMessage "encrypted_!".data = secureContent ∨
      ∃ bytes cs, atob (splitViaHead (stripEncTag "encrypted_!".data)) = some bytes ∧
        utf8Decode bytes = some cs ∧ decryptMessage "encrypted_!".data = cs) :=
  ⟨(claim10_decrypt_total "plain".data).1 (by decide),
    (claim10_decrypt_total "encrypted_!".data).2 (by decide)⟩

end WhisperLine
